import Mathlib

/-!
# maphash.go: a seeded hasher that borrows the host runtime's map hasher

Shallow embedding of `src/maphash.go` (package `lru`, bundled from
`github.com/dolthub/maphash`).

* Machine integers are natural numbers; a conversion to a `w`-bit type is an
  explicit `% 2 ^ w`.  The platform word size `w` (32 or 64) is a parameter.
* A pointer is the address it holds.  Memory maps an address to the value of the
  key type `K` stored there, so `&key` is the address of the frame slot that
  holds the argument `key`.
* A Go function value may read the machine state, draw from the process-wide
  random source and panic.  It is embedded as a state-passing function into
  `Except String`, the error being the panic.
* Everything the Go file takes from the host runtime (`fastrand64`, the map type
  descriptor and its `hasher`, `make(map[K]struct{})`) is a parameter.
-/

namespace lru

/-! ## Machine state -/

/-- An address: the integer value of an `unsafe.Pointer` (what `uintptr(p)` yields). -/
abbrev Pointer := Nat

/-- Machine state seen by the code: the `K`-typed variables in memory, and the
process-wide random source as the stream of its outputs together with the number of
outputs already consumed. -/
structure World (K : Type) where
  mem : Pointer → Option K
  rand : Nat → Nat
  drawn : Nat

/-- Writing the value `k` into the variable at address `a`. -/
def World.store {K : Type} (σ : World K) (a : Pointer) (k : K) : World K :=
  { σ with mem := fun q => if q = a then some k else σ.mem q }

/-- The outcome of a Go call returning an integer: a panic, or the result and the
machine state it leaves. -/
abbrev Outcome (K : Type) := Except String (Nat × World K)

/-- The returned value of an outcome, forgetting the machine state. -/
def Outcome.digest {K : Type} : Outcome K → Except String Nat
  | .error e => .error e
  | .ok (r, _) => .ok r

/-- Declared at `maphash.go:130-132`, `func fastrand64() uint64`, linked to
`runtime.fastrand64`: the next output of the random source, as a `uint64`. -/
def fastrand64 {K : Type} (σ : World K) : Nat × World K :=
  (σ.rand σ.drawn % 2 ^ 64, { σ with drawn := σ.drawn + 1 })

/-! ## The data model of `maphash.go` -/

/-- Embeds `type maphash_hashfn func(unsafe.Pointer, uintptr) uintptr`. -/
abbrev maphash_hashfn (K : Type) := Pointer → Nat → World K → Outcome K

/-- Embeds `type maphash_Hasher[K comparable] struct { hash maphash_hashfn; seed uintptr }`. -/
structure maphash_Hasher (K : Type) where
  hash : maphash_hashfn K
  seed : Nat

/-- Embeds `type maphash__type struct` (`go/src/runtime/type.go`); `equal` is a
function value that may be nil. -/
structure maphash__type (K : Type) where
  size : Nat
  ptrdata : Nat
  hash : Nat
  tflag : Nat
  align : Nat
  fieldAlign : Nat
  kind : Nat
  equal : Option (Pointer → Pointer → World K → Except String Bool)
  gcdata : Pointer
  str : Int
  ptrToThis : Int

/-- Embeds `type maphash_maptype struct` (`go/src/runtime/type.go`); the pointers to
type descriptors are embedded as the descriptors they point to. -/
structure maphash_maptype (K : Type) where
  typ : maphash__type K
  key : maphash__type K
  elem : maphash__type K
  bucket : maphash__type K
  hasher : maphash_hashfn K
  keysize : Nat
  elemsize : Nat
  bucketsize : Nat
  flags : Nat

/-- Embeds `type maphash_hmap struct` (`go/src/runtime/map.go`). -/
structure maphash_hmap where
  count : Int
  flags : Nat
  B : Nat
  noverflow : Nat
  hash0 : Nat
  buckets : Pointer
  oldbuckets : Pointer
  nevacuate : Nat
  extra : Pointer

/-- Embeds `type maphash_mapiface struct { typ *maphash_maptype; val *maphash_hmap }`:
the two words of an interface value that holds a map. -/
structure maphash_mapiface (K : Type) where
  typ : maphash_maptype K
  val : maphash_hmap

/-- What the host runtime supplies for the key type `K`: the type descriptor of
`map[K]struct{}` and the effect of `make(map[K]struct{})`. -/
structure Runtime (K : Type) where
  maptype : maphash_maptype K
  makemap : World K → maphash_hmap × World K

/-! ## The operations of `maphash.go` -/

/-- Embeds `maphash_noescape`: `x := uintptr(p); return unsafe.Pointer(x ^ 0)`. -/
def maphash_noescape (p : Pointer) : Pointer :=
  let x := p
  x ^^^ 0

/-- Embeds `maphash_newHashSeed`: `return uintptr(fastrand64())` on a platform with
`w`-bit words. -/
def maphash_newHashSeed {K : Type} (w : Nat) (σ : World K) : Nat × World K :=
  let (r, σ1) := fastrand64 σ
  (r % 2 ^ w, σ1)

/-- Embeds `maphash_getRuntimeHasher[K]`: `a := any(make(map[K]struct{}))`, the
interface value is read as a `maphash_mapiface`, and `h = i.typ.hasher`. -/
def maphash_getRuntimeHasher {K : Type} (rt : Runtime K) (σ : World K) :
    maphash_hashfn K × World K :=
  let (m, σ1) := rt.makemap σ
  let a : maphash_mapiface K := { typ := rt.maptype, val := m }
  let i := a
  (i.typ.hasher, σ1)

/-- Embeds `maphash_NewHasher[K]`: the fields of the composite literal are evaluated
in order, `hash` first and `seed` second. -/
def maphash_NewHasher {K : Type} (w : Nat) (rt : Runtime K) (σ : World K) :
    maphash_Hasher K × World K :=
  let (hf, σ1) := maphash_getRuntimeHasher rt σ
  let (s, σ2) := maphash_newHashSeed w σ1
  ({ hash := hf, seed := s }, σ2)

/-- The local variables of one activation of `Hash` other than `key`, which lives in
memory because its address is taken: the receiver `h` (a copy, the receiver being
passed by value) and the pointer `p`. -/
structure HashFrame (K : Type) where
  h : maphash_Hasher K
  p : Pointer

/-- Embeds `maphash_Hasher[K].Hash`: the argument `key` occupies the frame slot at
address `a`; `p := maphash_noescape(unsafe.Pointer(&key))`; the result is
`uint64(h.hash(p, h.seed))`.  Returns the frame at the end of the call together with
the outcome. -/
def maphash_Hasher.exec {K : Type} (h : maphash_Hasher K) (key : K) (a : Pointer)
    (σ : World K) : HashFrame K × Outcome K :=
  let σ0 := σ.store a key
  let p := maphash_noescape a
  let fr : HashFrame K := { h := h, p := p }
  match fr.h.hash fr.p fr.h.seed σ0 with
  | .error e => (fr, .error e)
  | .ok (r, σ1) => (fr, .ok (r % 2 ^ 64, σ1))

/-- The outcome of `h.Hash(key)`. -/
def maphash_Hasher.Hash {K : Type} (h : maphash_Hasher K) (key : K) (a : Pointer)
    (σ : World K) : Outcome K :=
  (h.exec key a σ).2

/-- A hash function respects its result type `uintptr` on a platform with `w`-bit
words. -/
def maphash_hashfn.WordSized {K : Type} (w : Nat) (f : maphash_hashfn K) : Prop :=
  ∀ p s σ r σ1, s < 2 ^ w → f p s σ = .ok (r, σ1) → r < 2 ^ w

/-- At the key `key` and the seed `seed` the hash function is a function of the key it
finds and of the seed: neither the address of the key nor the rest of the machine state
changes its result. -/
def maphash_hashfn.DeterminedAt {K : Type} (f : maphash_hashfn K) (key : K) (seed : Nat) :
    Prop :=
  ∀ p1 p2 σ1 σ2, σ1.mem p1 = some key → σ2.mem p2 = some key →
    (f p1 seed σ1).digest = (f p2 seed σ2).digest

/-- The hash function agrees on any two keys that the equality `eq` of the key type
identifies, wherever they are stored. -/
def maphash_hashfn.RespectsEq {K : Type} (eq : K → K → Prop) (f : maphash_hashfn K) : Prop :=
  ∀ s p1 p2 σ1 σ2 k1 k2, σ1.mem p1 = some k1 → σ2.mem p2 = some k2 → eq k1 k2 →
    (f p1 s σ1).digest = (f p2 s σ2).digest

/-- A caller that hashes the same key twice in a row with the same hasher. -/
def hashTwice {K : Type} (h : maphash_Hasher K) (key : K) (a : Pointer) (σ : World K) :
    Except String (Nat × Nat) :=
  match h.Hash key a σ with
  | .error e => .error e
  | .ok (d1, σ1) =>
    match h.Hash key a σ1 with
    | .error e => .error e
    | .ok (d2, _) => .ok (d1, d2)

/-! ## A reference host runtime

The hash function stored in a hasher is not in `maphash.go`: it is the `hasher` field
of a type descriptor owned by the Go runtime.  To evaluate the operations above on
concrete keys, this section models the part of the Go runtime that fills that field
(`go/src/runtime/alg.go`: `memhash64`, `f64hash`, `strhash`, `nilinterhash`,
`typehash`, and `efaceeq` for `==`).  The byte-mixing primitive `memhash`, which differs
between hosts (AES instructions or a multiplicative fallback), stays a parameter `mh`.
-/

/-- Key types used with the reference runtime. -/
inductive GoType where
  | uint64
  | float64
  | string
  | slice
  | iface
  deriving DecidableEq, Repr

/-- Go values of those types.  A float is its IEEE-754 bit pattern, a string its data
pointer and the bytes found there, a slice its three header words, an interface value is
nil or holds a dynamic value. -/
inductive GoVal where
  | uint64 (n : Nat)
  | float64 (bits : Nat)
  | string (data : Pointer) (bytes : List Nat)
  | slice (data : Pointer) (len : Nat) (cap : Nat)
  | nilface
  | eface (dyn : GoVal)
  deriving DecidableEq, Repr

/-- The type of a value. -/
def GoVal.typeOf : GoVal → GoType
  | .uint64 _ => .uint64
  | .float64 _ => .float64
  | .string _ _ => .string
  | .slice _ _ _ => .slice
  | .nilface => .iface
  | .eface _ => .iface

/-- A bit pattern is an IEEE-754 double NaN: exponent all ones, mantissa not zero. -/
def isNaN (bits : Nat) : Bool :=
  bits / 2 ^ 52 % 2 ^ 11 == 2047 && bits % 2 ^ 52 != 0

/-- A bit pattern is `+0.0` or `-0.0`. -/
def isZero (bits : Nat) : Bool :=
  bits % 2 ^ 63 == 0

/-- Go's `==` on two values of one static type; comparing interface values whose common
dynamic type is not comparable panics (`efaceeq`). -/
def goEq : GoVal → GoVal → Except String Bool
  | .uint64 a, .uint64 b => .ok (a == b)
  | .float64 a, .float64 b =>
    .ok (!isNaN a && !isNaN b && ((isZero a && isZero b) || a == b))
  | .string _ s, .string _ t => .ok (s == t)
  | .nilface, .nilface => .ok true
  | .eface u, .eface v =>
    if u.typeOf ≠ v.typeOf then .ok false
    else if u.typeOf = .slice then .error "comparing uncomparable type"
    else goEq u v
  | .slice _ _ _, .slice _ _ _ => .error "comparing uncomparable type"
  | _, _ => .ok false

/-- The `equal` function of a comparable type: `==` on the two values pointed to. -/
def memequal (p q : Pointer) (σ : World GoVal) : Except String Bool :=
  match σ.mem p, σ.mem q with
  | some a, some b => goEq a b
  | _, _ => .error "invalid memory address or nil pointer dereference"

/-- A runtime type descriptor on `w`-bit words with the given size, kind (the numbering
of `reflect.Kind`) and `equal` function; the fields nothing here reads are zero. -/
def mkType (w size kind : Nat)
    (equal : Option (Pointer → Pointer → World GoVal → Except String Bool)) :
    maphash__type GoVal :=
  { size := size, ptrdata := 0, hash := 0, tflag := 0, align := w / 8, fieldAlign := w / 8,
    kind := kind, equal := equal, gcdata := 0, str := 0, ptrToThis := 0 }

/-- Runtime type descriptor of a key type; `equal` is nil for a type that is not
comparable. -/
def rtype (w : Nat) : GoType → maphash__type GoVal
  | .uint64 => mkType w 8 11 (some memequal)
  | .float64 => mkType w 8 14 (some memequal)
  | .string => mkType w (2 * (w / 8)) 24 (some memequal)
  | .slice => mkType w (3 * (w / 8)) 23 none
  | .iface => mkType w (2 * (w / 8)) 20 (some memequal)

/-- The constant `c0` of `runtime/alg.go`, for pointers of `w / 8` bytes. -/
def c0 (w : Nat) : Nat :=
  ((8 - w / 8) / 4 * 2860486313 + (w / 8 - 4) / 4 * 33054211828000289) % 2 ^ w

/-- The constant `c1` of `runtime/alg.go`, for pointers of `w / 8` bytes. -/
def c1 (w : Nat) : Nat :=
  ((8 - w / 8) / 4 * 3267000013 + (w / 8 - 4) / 4 * 23344194077549503) % 2 ^ w

/-- The runtime's 32-bit draw `fastrand`, taken from the same random source. -/
def fastrand {K : Type} (σ : World K) : Nat × World K :=
  (σ.rand σ.drawn % 2 ^ 32, { σ with drawn := σ.drawn + 1 })

/-- The `n` little-endian bytes of `x`. -/
def leBytes (n x : Nat) : List Nat :=
  (List.range n).map fun i => x / 256 ^ i % 256

/-- Models `f64hash`: both zeros hash alike, a NaN is mixed with a fresh random draw,
any other float is hashed by its eight bytes. -/
def f64hash (w : Nat) (mh : List Nat → Nat → Nat) (bits h : Nat) (σ : World GoVal) :
    Outcome GoVal :=
  if isZero bits then .ok (c1 w * (c0 w ^^^ h) % 2 ^ w, σ)
  else if isNaN bits then
    let (r, σ1) := fastrand σ
    .ok (c1 w * (c0 w ^^^ h ^^^ r) % 2 ^ w, σ1)
  else .ok (mh (leBytes 8 bits) h % 2 ^ w, σ)

/-- Models `typehash` together with `nilinterhash`: the hash of a value by its type.  An
interface value whose dynamic type has a nil `equal` function panics. -/
def typehash (w : Nat) (mh : List Nat → Nat → Nat) : GoVal → Nat → World GoVal → Outcome GoVal
  | .uint64 n, h, σ => .ok (mh (leBytes 8 n) h % 2 ^ w, σ)
  | .float64 b, h, σ => f64hash w mh b h σ
  | .string _ s, h, σ => .ok (mh s h % 2 ^ w, σ)
  | .slice _ _ _, _, _ => .error "hash of unhashable type"
  | .nilface, h, σ => .ok (h, σ)
  | .eface v, h, σ =>
    match (rtype w v.typeOf).equal with
    | none => .error "hash of unhashable type"
    | some _ =>
      match typehash w mh v (h ^^^ c0 w) σ with
      | .error e => .error e
      | .ok (r, σ1) => .ok (c1 w * r % 2 ^ w, σ1)

/-- The `hasher` the reference runtime puts in the descriptor of a map type: it hashes
the key found at `p`. -/
def refHasher (w : Nat) (mh : List Nat → Nat → Nat) : maphash_hashfn GoVal :=
  fun p h σ =>
    match σ.mem p with
    | none => .error "invalid memory address or nil pointer dereference"
    | some v => typehash w mh v h σ

/-- The reference runtime for maps keyed by `kt`: the descriptor of `map[kt]struct{}`,
and `make`, which gives the new map a random `hash0`. -/
def refRuntime (w : Nat) (mh : List Nat → Nat → Nat) (kt : GoType) : Runtime GoVal where
  maptype :=
    { typ := mkType w (w / 8) 21 none
      key := rtype w kt
      elem := mkType w 0 25 (some memequal)
      bucket := mkType w (8 + 8 * (rtype w kt).size + w / 8) 25 none
      hasher := refHasher w mh
      keysize := (rtype w kt).size
      elemsize := 0
      bucketsize := 8 + 8 * (rtype w kt).size + w / 8
      flags := 0 }
  makemap := fun σ =>
    let (r, σ1) := fastrand σ
    ({ count := 0, flags := 0, B := 0, noverflow := 0, hash0 := r, buckets := 0,
       oldbuckets := 0, nevacuate := 0, extra := 0 }, σ1)

/-- A fixed byte mixer standing for the host's `memhash` in evaluations. -/
def sampleMemhash (bs : List Nat) (h : Nat) : Nat :=
  bs.foldl (fun acc b => (acc * 1099511628211 + b) % 2 ^ 64) (h ^^^ 14695981039346656037)

/-- A machine state with empty memory whose random source outputs `1, 2, 3, ...`. -/
def sampleWorld : World GoVal :=
  { mem := fun _ => none, rand := fun n => n + 1, drawn := 0 }

/-- The bit pattern of the quiet NaN `0x7FF8000000000001`. -/
def nanBits : Nat := 0x7FF8000000000001

/-- A second byte mixer, standing for the `memhash` of another host. -/
def otherMemhash (bs : List Nat) (h : Nat) : Nat :=
  bs.foldl (fun acc b => (acc * 31 + b) % 2 ^ 64) (h + 1)

/-! ## Basic facts about the embedding -/

theorem noescape_id (p : Pointer) : maphash_noescape p = p := by
  simp [maphash_noescape]

theorem store_mem_self {K : Type} (σ : World K) (a : Pointer) (k : K) :
    (σ.store a k).mem a = some k := by
  simp [World.store]

theorem Hash_unfold {K : Type} (h : maphash_Hasher K) (key : K) (a : Pointer) (σ : World K) :
    h.Hash key a σ =
      match h.hash a h.seed (σ.store a key) with
      | .error e => .error e
      | .ok (r, σ1) => .ok (r % 2 ^ 64, σ1) := by
  simp only [maphash_Hasher.Hash, maphash_Hasher.exec, noescape_id]
  cases h.hash a h.seed (σ.store a key) with
  | error e => rfl
  | ok v => rfl

theorem Hash_digest {K : Type} (h : maphash_Hasher K) (key : K) (a : Pointer) (σ : World K) :
    (h.Hash key a σ).digest =
      match (h.hash a h.seed (σ.store a key)).digest with
      | .error e => .error e
      | .ok r => .ok (r % 2 ^ 64) := by
  rw [Hash_unfold]
  cases h.hash a h.seed (σ.store a key) with
  | error e => rfl
  | ok v => rfl

/-! ## Facts about the reference runtime -/

theorem digest_ok_inj {K : Type} {x y : Outcome K} {r : Nat} {σ : World K}
    (hx : x = .ok (r, σ)) (hxy : x.digest = y.digest) : ∃ σ1, y = .ok (r, σ1) := by
  subst hx
  cases y with
  | error e => simp [Outcome.digest] at hxy
  | ok v =>
    obtain ⟨r1, σ1⟩ := v
    simp only [Outcome.digest, Except.ok.injEq] at hxy
    exact ⟨σ1, by rw [hxy]⟩

theorem digest_error_inj {K : Type} {x y : Outcome K} {e : String}
    (hx : x = .error e) (hxy : x.digest = y.digest) : y = .error e := by
  subst hx
  cases y with
  | error e1 =>
    simp only [Outcome.digest, Except.error.injEq] at hxy
    rw [hxy]
  | ok v =>
    obtain ⟨r1, σ1⟩ := v
    simp [Outcome.digest] at hxy

theorem f64hash_respects_eq (w : Nat) (mh : List Nat → Nat → Nat) (a b h : Nat)
    (σ1 σ2 : World GoVal)
    (hab : (!isNaN a && !isNaN b && ((isZero a && isZero b) || a == b)) = true) :
    (f64hash w mh a h σ1).digest = (f64hash w mh b h σ2).digest := by
  simp only [Bool.and_eq_true, Bool.not_eq_true', Bool.or_eq_true, beq_iff_eq] at hab
  obtain ⟨⟨ha, hb⟩, hz⟩ := hab
  rcases hz with ⟨hza, hzb⟩ | rfl
  · simp [f64hash, hza, hzb, Outcome.digest]
  · cases hz : isZero a <;> simp [f64hash, hz, ha, Outcome.digest]

theorem typehash_respects_goEq (w : Nat) (mh : List Nat → Nat → Nat) :
    ∀ (v1 v2 : GoVal), goEq v1 v2 = .ok true → ∀ (h : Nat) (σ1 σ2 : World GoVal),
      (typehash w mh v1 h σ1).digest = (typehash w mh v2 h σ2).digest := by
  intro v1
  induction v1 with
  | uint64 n =>
    intro v2 he h σ1 σ2
    cases v2 <;> simp [goEq] at he
    subst he
    simp [typehash, Outcome.digest]
  | float64 a =>
    intro v2 he h σ1 σ2
    cases v2 with
    | float64 b =>
      simp only [goEq, Except.ok.injEq] at he
      simp only [typehash]
      exact f64hash_respects_eq w mh a b h σ1 σ2 he
    | _ => simp [goEq] at he
  | string d s =>
    intro v2 he h σ1 σ2
    cases v2 <;> simp [goEq] at he
    subst he
    simp [typehash, Outcome.digest]
  | slice d l c =>
    intro v2 he h σ1 σ2
    cases v2 <;> simp [goEq] at he
  | nilface =>
    intro v2 he h σ1 σ2
    cases v2 <;> simp [goEq] at he
    simp [typehash, Outcome.digest]
  | eface u ih =>
    intro v2 he h σ1 σ2
    cases v2 with
    | eface v =>
      simp only [goEq] at he
      by_cases ht : u.typeOf = v.typeOf
      · by_cases hsl : u.typeOf = GoType.slice
        · have hsl1 : v.typeOf = GoType.slice := by rw [← ht]; exact hsl
          simp [ht, hsl1] at he
        · simp only [ht, ne_eq, not_true_eq_false, ↓reduceIte] at he
          have hsl2 : ¬ v.typeOf = GoType.slice := by rw [← ht]; exact hsl
          simp only [hsl2, ↓reduceIte] at he
          have hih := ih v he (h ^^^ c0 w) σ1 σ2
          have hequ : ∃ f, (rtype w u.typeOf).equal = some f := by
            cases hu : u.typeOf <;> simp_all [rtype, mkType]
          obtain ⟨f, hf⟩ := hequ
          have hf2 : (rtype w v.typeOf).equal = some f := by rw [← ht]; exact hf
          simp only [typehash, hf, hf2]
          cases hx : typehash w mh u (h ^^^ c0 w) σ1 with
          | error e =>
            rw [digest_error_inj hx hih]
          | ok p =>
            obtain ⟨r, σ3⟩ := p
            obtain ⟨σ4, hy⟩ := digest_ok_inj hx hih
            rw [hy]
            rfl
      · simp [ht] at he
    | _ => simp [goEq] at he

theorem typehash_ok_of_goEq (w : Nat) (mh : List Nat → Nat → Nat) :
    ∀ (v1 v2 : GoVal), goEq v1 v2 = .ok true → ∀ (h : Nat) (σ : World GoVal),
      ∃ r σ1, typehash w mh v1 h σ = .ok (r, σ1) := by
  intro v1
  induction v1 with
  | uint64 n =>
    intro v2 _ h σ
    exact ⟨_, _, rfl⟩
  | float64 a =>
    intro v2 _ h σ
    simp only [typehash, f64hash, fastrand]
    split_ifs
    · exact ⟨_, _, rfl⟩
    · exact ⟨_, _, rfl⟩
    · exact ⟨_, _, rfl⟩
  | string d bs =>
    intro v2 _ h σ
    exact ⟨_, _, rfl⟩
  | slice d l c =>
    intro v2 he h σ
    cases v2 <;> simp [goEq] at he
  | nilface =>
    intro v2 _ h σ
    exact ⟨_, _, rfl⟩
  | eface u ih =>
    intro v2 he h σ
    cases v2 with
    | eface v =>
      simp only [goEq] at he
      by_cases ht : u.typeOf = v.typeOf
      · by_cases hsl : u.typeOf = GoType.slice
        · have hsl1 : v.typeOf = GoType.slice := by rw [← ht]; exact hsl
          simp [ht, hsl1] at he
        · simp only [ht, ne_eq, not_true_eq_false, ↓reduceIte] at he
          have hsl2 : ¬ v.typeOf = GoType.slice := by rw [← ht]; exact hsl
          simp only [hsl2, ↓reduceIte] at he
          obtain ⟨r, σ1, hr⟩ := ih v he (h ^^^ c0 w) σ
          have hequ : ∃ f, (rtype w u.typeOf).equal = some f := by
            cases hu : u.typeOf <;> simp_all [rtype, mkType]
          obtain ⟨f, hf⟩ := hequ
          refine ⟨c1 w * r % 2 ^ w, σ1, ?_⟩
          simp only [typehash, hf, hr]
      · simp [ht] at he
    | _ => simp [goEq] at he

theorem refHasher_respectsEq (w : Nat) (mh : List Nat → Nat → Nat) :
    (refHasher w mh).RespectsEq (fun a b => goEq a b = .ok true) := by
  intro s p1 p2 σ1 σ2 k1 k2 h1 h2 he
  simp only [refHasher, h1, h2]
  exact typehash_respects_goEq w mh k1 k2 he s σ1 σ2

theorem refHasher_determinedAt (w : Nat) (mh : List Nat → Nat → Nat) (key : GoVal)
    (seed : Nat) (hk : goEq key key = .ok true) : (refHasher w mh).DeterminedAt key seed := by
  intro p1 p2 σ1 σ2 h1 h2
  exact refHasher_respectsEq w mh seed p1 p2 σ1 σ2 key key h1 h2 hk

theorem refHasher_wordSized (w : Nat) (mh : List Nat → Nat → Nat) :
    (refHasher w mh).WordSized w := by
  intro p s σ r σ1 hs hc
  have hpos : 0 < 2 ^ w := Nat.two_pow_pos w
  simp only [refHasher] at hc
  cases hm : σ.mem p with
  | none => simp [hm] at hc
  | some v =>
    simp only [hm] at hc
    cases v with
    | uint64 n =>
      simp only [typehash, Except.ok.injEq, Prod.mk.injEq] at hc
      rw [← hc.1]
      exact Nat.mod_lt _ hpos
    | float64 b =>
      simp only [typehash, f64hash, fastrand] at hc
      split_ifs at hc <;>
        · simp only [Except.ok.injEq, Prod.mk.injEq] at hc
          rw [← hc.1]
          exact Nat.mod_lt _ hpos
    | string d bs =>
      simp only [typehash, Except.ok.injEq, Prod.mk.injEq] at hc
      rw [← hc.1]
      exact Nat.mod_lt _ hpos
    | slice d l c => simp [typehash] at hc
    | nilface =>
      simp only [typehash, Except.ok.injEq, Prod.mk.injEq] at hc
      rw [← hc.1]
      exact hs
    | eface u =>
      simp only [typehash] at hc
      split at hc
      · simp at hc
      · split at hc
        · simp at hc
        · simp only [Except.ok.injEq, Prod.mk.injEq] at hc
          rw [← hc.1]
          exact Nat.mod_lt _ hpos

/-! ## The operations, claim by claim -/

/-- C10: `maphash_noescape` is the identity, since `x ^ 0 = x` for every address `x`;
hence the pointer `p` that `Hash` hands to the hash function is the address of its own
argument `key`: the one call `Hash` makes is `h.hash` at that address, with the seed of the
hasher, in the state where the key is stored there. -/
theorem noescape_identity (p : Pointer) :
    maphash_noescape p = p ∧ p ^^^ 0 = p ∧
      ∀ {K : Type} (h : maphash_Hasher K) (key : K) (σ : World K),
        (h.exec key p σ).1.p = p ∧
        (σ.store p key).mem (h.exec key p σ).1.p = some key ∧
        h.Hash key p σ =
          (match h.hash p h.seed (σ.store p key) with
            | .error e => .error e
            | .ok (r, σ1) => .ok (r % 2 ^ 64, σ1)) ∧
        (h.exec key p σ).2 =
          (match h.hash (h.exec key p σ).1.p h.seed (σ.store p key) with
            | .error e => .error e
            | .ok (r, σ1) => .ok (r % 2 ^ 64, σ1)) := by
  have hid : maphash_noescape p = p := by simp [maphash_noescape]
  refine ⟨hid, by simp, ?_⟩
  intro K h key σ
  have hp : (h.exec key p σ).1.p = p := by
    simp only [maphash_Hasher.exec, hid]
    cases h.hash p h.seed (σ.store p key) with
    | error e => rfl
    | ok v => rfl
  refine ⟨hp, ?_, Hash_unfold h key p σ, ?_⟩
  · rw [hp]
    simp [World.store]
  · rw [hp]
    exact Hash_unfold h key p σ

/-- C9: `maphash_newHashSeed` returns the `uint64` drawn by `fastrand64` reduced modulo
`2 ^ w` and consumes that one draw; with 64-bit words the seed is the drawn value itself,
with 32-bit words it is its low 32 bits. -/
theorem newHashSeed_conversion {K : Type} (w : Nat) (σ : World K) :
    (maphash_newHashSeed w σ).1 = (fastrand64 σ).1 % 2 ^ w ∧
    (maphash_newHashSeed w σ).2 = (fastrand64 σ).2 ∧
    (fastrand64 σ).1 < 2 ^ 64 ∧
    (maphash_newHashSeed 64 σ).1 = (fastrand64 σ).1 ∧
    (maphash_newHashSeed 32 σ).1 = (fastrand64 σ).1 % 2 ^ 32 ∧
    (maphash_newHashSeed 32 σ).1 = (fastrand64 σ).1 &&& (2 ^ 32 - 1) := by
  have hlt : (fastrand64 σ).1 < 2 ^ 64 := by
    simp only [fastrand64]
    exact Nat.mod_lt _ (by norm_num)
  refine ⟨rfl, rfl, hlt, ?_, rfl, ?_⟩
  · show (fastrand64 σ).1 % 2 ^ 64 = (fastrand64 σ).1
    exact Nat.mod_eq_of_lt hlt
  · show (fastrand64 σ).1 % 2 ^ 32 = (fastrand64 σ).1 &&& (2 ^ 32 - 1)
    exact (Nat.and_pow_two_sub_one_eq_mod _ 32).symm

/-- C8: on a platform with `w ≤ 64`-bit words, for a hasher whose seed and hash function
are word-sized, `h.Hash(k)` is the outcome of the single call `h.hash(p, h.seed)` made in
the state where `p` addresses the copy of `k`; the conversion to `uint64` leaves the
value as it is, and the digest is below `2 ^ w`. -/
theorem Hash_definition {K : Type} (w : Nat) (hw : w ≤ 64) (h : maphash_Hasher K)
    (hs : h.seed < 2 ^ w) (hf : h.hash.WordSized w) (key : K) (a : Pointer) (σ : World K) :
    (σ.store a key).mem (maphash_noescape a) = some key ∧
    h.Hash key a σ = h.hash (maphash_noescape a) h.seed (σ.store a key) ∧
    ∀ d σ1, h.Hash key a σ = .ok (d, σ1) → d < 2 ^ w := by
  have hpow : 2 ^ w ≤ 2 ^ 64 := Nat.pow_le_pow_right (by norm_num) hw
  have key_eq : h.Hash key a σ = h.hash (maphash_noescape a) h.seed (σ.store a key) := by
    rw [Hash_unfold, noescape_id]
    cases hc : h.hash a h.seed (σ.store a key) with
    | error e => rfl
    | ok v =>
      obtain ⟨r, σ1⟩ := v
      have hr : r < 2 ^ w := hf a h.seed (σ.store a key) r σ1 hs hc
      simp only [Nat.mod_eq_of_lt (lt_of_lt_of_le hr hpow)]
  refine ⟨by rw [noescape_id]; exact store_mem_self σ a key, key_eq, ?_⟩
  intro d σ1 hd
  rw [key_eq] at hd
  exact hf _ h.seed _ d σ1 hs hd

/-- C5: `maphash_NewHasher` takes no key; the `hash` field of its result is the function
returned by `maphash_getRuntimeHasher`, the `seed` field is the value `maphash_newHashSeed`
gets from the one draw of the random source it makes after that, and the seed is the same
whatever type descriptor the runtime holds for `K`. -/
theorem NewHasher_postcondition {K : Type} (w : Nat) (rt : Runtime K) (σ : World K) :
    (maphash_NewHasher w rt σ).1.hash = (maphash_getRuntimeHasher rt σ).1 ∧
    (maphash_NewHasher w rt σ).1.seed =
      (maphash_newHashSeed w (maphash_getRuntimeHasher rt σ).2).1 ∧
    (maphash_NewHasher w rt σ).1.seed =
      (fastrand64 (maphash_getRuntimeHasher rt σ).2).1 % 2 ^ w ∧
    (maphash_NewHasher w rt σ).2 = (fastrand64 (maphash_getRuntimeHasher rt σ).2).2 ∧
    (maphash_NewHasher w rt σ).2.drawn = (maphash_getRuntimeHasher rt σ).2.drawn + 1 ∧
    ∀ d : maphash_maptype K,
      (maphash_NewHasher w { rt with maptype := d } σ).1.seed =
        (maphash_NewHasher w rt σ).1.seed :=
  ⟨rfl, rfl, rfl, rfl, rfl, fun _ => rfl⟩

/-- C4: at the end of `h.Hash(k)` the receiver still has the seed and the hash function
it had at the start and the call made was `h.hash(p, h.seed)`; so each `Hash` call on a
hasher made by `maphash_NewHasher` passes the seed drawn at construction. -/
theorem Hash_keeps_hasher {K : Type} (h : maphash_Hasher K) (key : K) (a : Pointer)
    (σ : World K) :
    (h.exec key a σ).1.h.seed = h.seed ∧
    (h.exec key a σ).1.h.hash = h.hash ∧
    (h.exec key a σ).1.h = h ∧
    (h.Hash key a σ).digest =
      (match ((h.exec key a σ).1.h.hash a h.seed (σ.store a key)).digest with
        | .error e => .error e
        | .ok r => .ok (r % 2 ^ 64)) ∧
    ∀ (w : Nat) (rt : Runtime K) (σ0 : World K),
      (((maphash_NewHasher w rt σ0).1.exec key a σ).1.h.seed =
          (maphash_newHashSeed w (maphash_getRuntimeHasher rt σ0).2).1) ∧
      ((maphash_NewHasher w rt σ0).1.Hash key a σ).digest =
        match (rt.maptype.hasher a
            (maphash_newHashSeed w (maphash_getRuntimeHasher rt σ0).2).1
            (σ.store a key)).digest with
        | .error e => .error e
        | .ok r => .ok (r % 2 ^ 64) := by
  have hfr : ∀ g : maphash_Hasher K, (g.exec key a σ).1.h = g := by
    intro g
    simp only [maphash_Hasher.exec]
    cases g.hash (maphash_noescape a) g.seed (σ.store a key) with
    | error e => rfl
    | ok v => rfl
  refine ⟨by rw [hfr], by rw [hfr], hfr h, ?_, ?_⟩
  · rw [hfr, Hash_digest]
  · intro w rt σ0
    refine ⟨by rw [hfr]; rfl, ?_⟩
    rw [Hash_digest]
    rfl

/-- C3, as amended: `Hash` has no failure of its own.  It returns a `uint64` exactly when
the stored hash function returns on `(p, h.seed)`, and it panics exactly when that
function panics, with the same panic. -/
theorem Hash_returns_iff_hash_returns {K : Type} (h : maphash_Hasher K) (key : K)
    (a : Pointer) (σ : World K) :
    ((∃ d σ1, h.Hash key a σ = .ok (d, σ1) ∧ d < 2 ^ 64) ↔
      ∃ r σ1, h.hash (maphash_noescape a) h.seed (σ.store a key) = .ok (r, σ1)) ∧
    ∀ e, h.Hash key a σ = .error e ↔
      h.hash (maphash_noescape a) h.seed (σ.store a key) = .error e := by
  rw [Hash_unfold, noescape_id]
  cases hc : h.hash a h.seed (σ.store a key) with
  | error e => simp
  | ok v =>
    obtain ⟨r, σ1⟩ := v
    simp only [reduceCtorEq, iff_true, implies_true, and_true]
    exact ⟨fun _ => ⟨r, σ1, rfl⟩, fun _ => ⟨r % 2 ^ 64, σ1, rfl, Nat.mod_lt _ (by norm_num)⟩⟩

/-- C3, counterexample: on the reference runtime, a hasher for the key type `any`
panics on an interface value whose dynamic value is a slice. -/
theorem Hash_panics_on_unhashable_dynamic_value :
    ((maphash_NewHasher 64 (refRuntime 64 sampleMemhash .iface) sampleWorld).1.Hash
        (.eface (.slice 0 0 0)) 1000 sampleWorld).digest
      = .error "hash of unhashable type" ∧
    (GoVal.eface (.slice 0 0 0)).typeOf = GoType.iface := by
  constructor <;> rfl

/-- C6, as amended: the function `maphash_NewHasher` stores is the `hasher` field of the
host runtime's descriptor of `map[K]struct{}`, taken as it is; the digest of a key is
what that runtime function returns for the key and the hasher's seed. -/
theorem NewHasher_stores_runtime_hasher {K : Type} (w : Nat) (rt : Runtime K) (σ : World K) :
    (maphash_getRuntimeHasher rt σ).1 = rt.maptype.hasher ∧
    (maphash_NewHasher w rt σ).1.hash = rt.maptype.hasher ∧
    ∀ (key : K) (a : Pointer) (σ1 : World K),
      ((maphash_NewHasher w rt σ).1.Hash key a σ1).digest =
        match (rt.maptype.hasher a (maphash_NewHasher w rt σ).1.seed (σ1.store a key)).digest with
        | .error e => .error e
        | .ok r => .ok (r % 2 ^ 64) := by
  refine ⟨rfl, rfl, ?_⟩
  intro key a σ1
  rw [Hash_digest]
  rfl

/-- C6, counterexample: two hosts whose runtimes differ only in `memhash` give hashers with
the same seed that hash the same `uint64` key `0` to different digests. -/
theorem digest_depends_on_host_runtime :
    (maphash_NewHasher 64 (refRuntime 64 sampleMemhash .uint64) sampleWorld).1.seed = 2 ∧
    (maphash_NewHasher 64 (refRuntime 64 otherMemhash .uint64) sampleWorld).1.seed = 2 ∧
    ((maphash_NewHasher 64 (refRuntime 64 sampleMemhash .uint64) sampleWorld).1.Hash
        (.uint64 0) 1000 sampleWorld).digest = .ok 16626593026977353223 ∧
    ((maphash_NewHasher 64 (refRuntime 64 otherMemhash .uint64) sampleWorld).1.Hash
        (.uint64 0) 1000 sampleWorld).digest = .ok 2558673112323 := by
  refine ⟨rfl, rfl, ?_, ?_⟩ <;> rfl

/-- C8, instance: 32-bit words, the reference runtime, the `uint64` key `7`. -/
theorem Hash_definition_witness :
    (32 ≤ 64) ∧
    (maphash_NewHasher 32 (refRuntime 32 sampleMemhash .uint64) sampleWorld).1.seed < 2 ^ 32 ∧
    (maphash_NewHasher 32 (refRuntime 32 sampleMemhash .uint64) sampleWorld).1.hash.WordSized 32 ∧
    ((sampleWorld.store 1000 (.uint64 7)).mem (maphash_noescape 1000) = some (.uint64 7) ∧
      (maphash_NewHasher 32 (refRuntime 32 sampleMemhash .uint64) sampleWorld).1.Hash
          (.uint64 7) 1000 sampleWorld =
        (maphash_NewHasher 32 (refRuntime 32 sampleMemhash .uint64) sampleWorld).1.hash
          (maphash_noescape 1000)
          (maphash_NewHasher 32 (refRuntime 32 sampleMemhash .uint64) sampleWorld).1.seed
          (sampleWorld.store 1000 (.uint64 7)) ∧
      ∀ d σ1, (maphash_NewHasher 32 (refRuntime 32 sampleMemhash .uint64) sampleWorld).1.Hash
          (.uint64 7) 1000 sampleWorld = .ok (d, σ1) → d < 2 ^ 32) :=
  ⟨by norm_num, by decide, refHasher_wordSized 32 sampleMemhash,
    Hash_definition 32 (by norm_num)
      (maphash_NewHasher 32 (refRuntime 32 sampleMemhash .uint64) sampleWorld).1
      (by decide) (refHasher_wordSized 32 sampleMemhash) (.uint64 7) 1000 sampleWorld⟩

/-- C1, as amended: two hashers with the same hash function and the same seed give two
byte-identical keys the same digest, wherever the keys are stored and whatever the
rest of the machine state, provided the hash function is, at that key and seed, a
function of the key and the seed alone. -/
theorem Hash_deterministic_where_hash_is {K : Type} (h1 h2 : maphash_Hasher K)
    (k1 k2 : K) (hf : h1.hash = h2.hash) (hs : h1.seed = h2.seed) (hk : k1 = k2)
    (hd : h1.hash.DeterminedAt k1 h1.seed) (a1 a2 : Pointer) (σ1 σ2 : World K) :
    (h1.Hash k1 a1 σ1).digest = (h2.Hash k2 a2 σ2).digest := by
  subst hk
  rw [Hash_digest, Hash_digest, ← hf, ← hs,
    hd a1 a2 (σ1.store a1 k1) (σ2.store a2 k1) (store_mem_self σ1 a1 k1)
      (store_mem_self σ2 a2 k1)]

/-- C1, instance: the string key "hello" under a hasher made by `maphash_NewHasher` on
the reference runtime and under another hasher with the same function and seed, the two
calls placing the key at different addresses in different machine states. -/
theorem Hash_deterministic_where_hash_is_witness :
    (maphash_NewHasher 64 (refRuntime 64 sampleMemhash .string) sampleWorld).1.hash
        = (maphash_Hasher.mk (refHasher 64 sampleMemhash) 2).hash ∧
    (maphash_NewHasher 64 (refRuntime 64 sampleMemhash .string) sampleWorld).1.seed
        = (maphash_Hasher.mk (refHasher 64 sampleMemhash) 2).seed ∧
    (maphash_NewHasher 64 (refRuntime 64 sampleMemhash .string) sampleWorld).1.hash.DeterminedAt
        (.string 4096 [104, 101, 108, 108, 111])
        (maphash_NewHasher 64 (refRuntime 64 sampleMemhash .string) sampleWorld).1.seed ∧
    ((maphash_NewHasher 64 (refRuntime 64 sampleMemhash .string) sampleWorld).1.Hash
        (.string 4096 [104, 101, 108, 108, 111]) 1000 sampleWorld).digest =
      ((maphash_Hasher.mk (refHasher 64 sampleMemhash) 2).Hash
        (.string 4096 [104, 101, 108, 108, 111]) 2000
        (maphash_NewHasher 64 (refRuntime 64 sampleMemhash .string) sampleWorld).2).digest :=
  ⟨rfl, rfl, refHasher_determinedAt 64 sampleMemhash _ _ (by rfl),
    Hash_deterministic_where_hash_is _ _ _ _ rfl rfl rfl
      (refHasher_determinedAt 64 sampleMemhash _ _ (by rfl)) 1000 2000 _ _⟩

/-- C1, counterexample: on the reference runtime one hasher for `float64` keys, used twice
in a row on the same NaN, returns two different digests. -/
theorem Hash_of_NaN_differs_between_calls :
    isNaN nanBits = true ∧
    hashTwice (maphash_NewHasher 64 (refRuntime 64 sampleMemhash .float64) sampleWorld).1
        (.float64 nanBits) 1000
        (maphash_NewHasher 64 (refRuntime 64 sampleMemhash .float64) sampleWorld).2
      = .ok (273866004139102688, 437275362681949209) ∧
    (273866004139102688 : Nat) ≠ 437275362681949209 := by
  refine ⟨rfl, rfl, by norm_num⟩

/-- C2: every hasher made by `maphash_NewHasher` on the reference runtime, for any word
size, byte mixer and key type, gives two keys that are equal under Go's `==` the same
digest, at whatever addresses and in whatever machine states the two calls run; this
covers keys that differ in their bytes, such as `+0.0` and `-0.0` or two equal strings
stored at different addresses. -/
theorem Hash_respects_key_equality (w : Nat) (mh : List Nat → Nat → Nat) (kt : GoType)
    (σ0 : World GoVal) (k1 k2 : GoVal) (he : goEq k1 k2 = .ok true) (a1 a2 : Pointer)
    (σ1 σ2 : World GoVal) :
    ∃ d, ((maphash_NewHasher w (refRuntime w mh kt) σ0).1.Hash k1 a1 σ1).digest = .ok d ∧
      ((maphash_NewHasher w (refRuntime w mh kt) σ0).1.Hash k2 a2 σ2).digest = .ok d := by
  have hh : (maphash_NewHasher w (refRuntime w mh kt) σ0).1.hash = refHasher w mh := rfl
  obtain ⟨r, σ3, hr⟩ := typehash_ok_of_goEq w mh k1 k2 he
    (maphash_NewHasher w (refRuntime w mh kt) σ0).1.seed (σ1.store a1 k1)
  have heq := typehash_respects_goEq w mh k1 k2 he
    (maphash_NewHasher w (refRuntime w mh kt) σ0).1.seed (σ1.store a1 k1) (σ2.store a2 k2)
  obtain ⟨σ4, hr2⟩ := digest_ok_inj hr heq
  refine ⟨r % 2 ^ 64, ?_, ?_⟩
  · rw [Hash_digest, hh]
    simp only [refHasher, store_mem_self, hr, Outcome.digest]
  · rw [Hash_digest, hh]
    simp only [refHasher, store_mem_self, hr2, Outcome.digest]

/-- C2, instance: `+0.0` and `-0.0`, which differ in their bytes, at two addresses under
a hasher for `float64` keys. -/
theorem Hash_respects_key_equality_witness :
    goEq (.float64 0) (.float64 (2 ^ 63)) = .ok true ∧
    GoVal.float64 0 ≠ GoVal.float64 (2 ^ 63) ∧
    ∃ d, ((maphash_NewHasher 64 (refRuntime 64 sampleMemhash .float64) sampleWorld).1.Hash
        (.float64 0) 1000 sampleWorld).digest = .ok d ∧
      ((maphash_NewHasher 64 (refRuntime 64 sampleMemhash .float64) sampleWorld).1.Hash
        (.float64 (2 ^ 63)) 2000 sampleWorld).digest = .ok d :=
  ⟨by rfl, by simp,
    Hash_respects_key_equality 64 sampleMemhash .float64 sampleWorld (.float64 0)
      (.float64 (2 ^ 63)) (by rfl) 1000 2000 sampleWorld sampleWorld⟩

end lru


